import Mathlib

/-!
Verification of the split-tree window manager of `wm.go` (vice).

The Go source is embedded shallowly:

* `Pane` (a Go interface) becomes a structure carrying an allocation
  identifier `pid : Nat` that models reference identity — two panes are
  "the same pane" exactly when their `pid`s agree, so two structurally
  identical panes produced by distinct allocations are distinct values.
  The per-variant behaviour the window manager consults (the concrete
  dynamic type, used by the `*CLIPane` type assertion, and the
  `CanTakeKeyboardFocus` method) is carried as fields, since the concrete
  pane implementations live outside the file under verification.
* `DisplayNode` keeps the source's three fields (pane slot, split line,
  children).  Every executed path of the source dereferences both
  children together, so the embedding fixes the both-or-neither children
  discipline: `leafN` is a node whose two child pointers are nil, `intN`
  a node with both children set.
* Go `float32` quantities (split fractions, extents, drag deltas) are
  modelled by `ℚ`.
* In-place mutation through pointers returned by the tree searches is
  modelled by functional rewriting at the path the search finds.
-/

namespace Vice

/-- The Go pane variants that appear in the `UnmarshalJSON` type switch of
src/wm.go (lines 178-248), plus `SplitLinePane` for `*SplitLine` (which also
implements the `Pane` interface) and `OtherKind` for pane implementations
unknown to this file. -/
inductive PaneKind where
  | AirportInfo
  | CLI
  | Empty
  | FlightPlan
  | FlightStrip
  | NotesView
  | Performance
  | RadarScope
  | Reminder
  | SplitLinePane
  | OtherKind
deriving DecidableEq, Repr

/-- A pane object.  `pid` models the Go allocation (reference identity);
`kind` models the dynamic type used by type assertions; `name` models
`Name()`; `canTakeKeyboardFocus` models the `CanTakeKeyboardFocus()` method
of the concrete pane (pane implementations are outside src/wm.go). -/
structure Pane where
  pid : Nat
  kind : PaneKind
  name : String
  canTakeKeyboardFocus : Bool
deriving DecidableEq, Repr

/-- SplitType (src/wm.go lines 47-53). -/
inductive SplitType where
  | SplitAxisNone
  | SplitAxisX
  | SplitAxisY
deriving DecidableEq, Repr

/-- SplitLine state (src/wm.go lines 55-58): split position and axis.
`float32` is modelled by `ℚ`. -/
structure SplitLine where
  Pos : ℚ
  Axis : SplitType
deriving DecidableEq, Repr

/-- The zero value of the Go `SplitLine` struct, as produced by
`&DisplayNode{Pane: ...}` composite literals. -/
def SplitLine.zero : SplitLine := ⟨0, SplitType.SplitAxisNone⟩

/-- DisplayNode (src/wm.go lines 96-100): pane slot (`Pane Pane`, nil
modelled as `none`), `SplitLine SplitLine`, and `Children [2]*DisplayNode`.
`leafN` has both children nil, `intN` has both set; the source crashes on
any node violating the both-or-neither discipline, so only these two forms
are modelled. -/
inductive DisplayNode where
  | leafN (pane : Option Pane) (splitLine : SplitLine)
  | intN (pane : Option Pane) (splitLine : SplitLine) (c0 c1 : DisplayNode)
deriving DecidableEq, Repr

namespace DisplayNode

/-- The `Pane` field of a node. -/
def pane : DisplayNode → Option Pane
  | .leafN pn _ => pn
  | .intN pn _ _ _ => pn

/-- The `SplitLine` field of a node. -/
def splitLine : DisplayNode → SplitLine
  | .leafN _ sl => sl
  | .intN _ sl _ _ => sl

/-- Whether `Children[0] != nil` holds for the node. -/
def hasChildren : DisplayNode → Bool
  | .leafN _ _ => false
  | .intN _ _ _ _ => true

/-- The structural invariant the source maintains (spec section 3): the
axis is `SplitAxisNone` iff the pane slot is populated and the children
are absent; internal nodes carry no pane. -/
def wfB : DisplayNode → Bool
  | .leafN pn sl => pn.isSome && (sl.Axis = SplitType.SplitAxisNone)
  | .intN pn sl c0 c1 =>
      pn.isNone && (sl.Axis ≠ SplitType.SplitAxisNone) && wfB c0 && wfB c1

/-- Whether some node of the tree has `p` in its pane slot (the Go
interface comparison `d.Pane == pane` with a non-nil `pane`). -/
def occursSlotB (p : Pane) : DisplayNode → Bool
  | .leafN pn _ => pn = some p
  | .intN pn _ c0 c1 => pn = some p || occursSlotB p c0 || occursSlotB p c1

/-- DisplayNode.SplitX (src/wm.go lines 288-294): returns a fresh internal
node with an X-axis split at `x` whose children are the receiver and
`newChild`.  The error log for splitting a non-leaf does not change the
returned value, so it is not modelled. -/
def SplitX (d : DisplayNode) (x : ℚ) (newChild : DisplayNode) : DisplayNode :=
  .intN none ⟨x, SplitType.SplitAxisX⟩ d newChild

/-- DisplayNode.SplitY (src/wm.go lines 296-302): the source builds the
returned node with `SplitLine{Axis: SplitAxisX, Pos: y}` — the X axis,
not the Y axis. -/
def SplitY (d : DisplayNode) (y : ℚ) (newChild : DisplayNode) : DisplayNode :=
  .intN none ⟨y, SplitType.SplitAxisX⟩ d newChild

end DisplayNode

/-- An item passed to a `VisitPanes` visit callback: either a node's pane
slot (possibly nil) or a pointer to a node's `SplitLine` (which implements
the `Pane` interface). -/
inductive VItem where
  | pane (p : Option Pane)
  | split (sl : SplitLine)
deriving DecidableEq, Repr

/-- DisplayNode.VisitPanes (src/wm.go lines 253-262): switches on the
node's axis; a leaf visits the pane slot, any other axis visits child 0,
then the node's own split line, then child 1.  A node whose axis is not
`SplitAxisNone` but whose children are nil crashes in the source; the
embedding returns `[]` there (excluded by `wfB`). -/
def DisplayNode.visitPanes : DisplayNode → List VItem
  | .leafN pn sl =>
      match sl.Axis with
      | .SplitAxisNone => [.pane pn]
      | _ => []
  | .intN pn sl c0 c1 =>
      match sl.Axis with
      | .SplitAxisNone => [.pane pn]
      | _ => c0.visitPanes ++ [.split sl] ++ c1.visitPanes

/-- C3: `SplitX f n` on any node yields an internal node with an X-axis
split line at position `f` and children `[d, n]`; `SplitY f n` likewise
uses the X axis (not the Y axis) for its geometry, as the claim states.
Proved for every node, which subsumes the claim's leaf case. -/
theorem splitX_splitY_geometry (d n : DisplayNode) (f : ℚ) :
    (d.SplitX f n).splitLine.Axis = SplitType.SplitAxisX ∧
    (d.SplitX f n).splitLine.Pos = f ∧
    d.SplitX f n = DisplayNode.intN none ⟨f, SplitType.SplitAxisX⟩ d n ∧
    (d.SplitY f n).splitLine.Axis = SplitType.SplitAxisX ∧
    (d.SplitY f n).splitLine.Axis ≠ SplitType.SplitAxisY ∧
    d.SplitY f n = DisplayNode.intN none ⟨f, SplitType.SplitAxisX⟩ d n := by
  refine ⟨rfl, rfl, rfl, rfl, ?_, rfl⟩
  intro h
  exact SplitType.noConfusion h

/-- DisplayNode.NodeForPane (src/wm.go lines 117-129): depth-first search
for the node whose pane slot equals `p` (Go interface equality, i.e.
identity); checks the node itself, then (when children are present)
child 0, then child 1. -/
def DisplayNode.NodeForPane : DisplayNode → Pane → Option DisplayNode
  | .leafN pn sl, p =>
      if pn = some p then some (.leafN pn sl) else none
  | .intN pn sl c0 c1, p =>
      if pn = some p then some (.intN pn sl c0 c1)
      else
        match c0.NodeForPane p with
        | some n => some n
        | none => c1.NodeForPane p

/-- C5: `NodeForPane` returns a node whose pane slot is `p` by identity
whenever `p` occupies some node's pane slot, and `none` whenever it does
not.  Pane equality is `pid` (allocation) equality, so two structurally
identical panes from distinct allocations are distinct. -/
theorem nodeForPane_correct (d : DisplayNode) (p : Pane) :
    (d.occursSlotB p = true → ∃ n, d.NodeForPane p = some n ∧ n.pane = some p) ∧
    (d.occursSlotB p = false → d.NodeForPane p = none) := by
  induction d with
  | leafN pn sl =>
      constructor
      · intro h
        simp only [DisplayNode.occursSlotB, decide_eq_true_eq] at h
        exact ⟨.leafN pn sl, by simp [DisplayNode.NodeForPane, h], by simp [DisplayNode.pane, h]⟩
      · intro h
        simp only [DisplayNode.occursSlotB, decide_eq_false_iff_not] at h
        simp [DisplayNode.NodeForPane, h]
  | intN pn sl c0 c1 ih0 ih1 =>
      constructor
      · intro h
        simp only [DisplayNode.occursSlotB, Bool.or_eq_true, decide_eq_true_eq] at h
        by_cases hpn : pn = some p
        · exact ⟨.intN pn sl c0 c1, by simp [DisplayNode.NodeForPane, hpn], by simp [DisplayNode.pane, hpn]⟩
        · rcases h with (h | h) | h
          · exact absurd h hpn
          · obtain ⟨n, hn, hp⟩ := ih0.1 h
            exact ⟨n, by simp [DisplayNode.NodeForPane, hpn, hn], hp⟩
          · by_cases h0 : c0.occursSlotB p
            · obtain ⟨n, hn, hp⟩ := ih0.1 h0
              exact ⟨n, by simp [DisplayNode.NodeForPane, hpn, hn], hp⟩
            · obtain ⟨n, hn, hp⟩ := ih1.1 h
              have h0n := ih0.2 (by simpa using h0)
              exact ⟨n, by simp [DisplayNode.NodeForPane, hpn, h0n, hn], hp⟩
      · intro h
        simp only [DisplayNode.occursSlotB, Bool.or_eq_false_iff, decide_eq_false_iff_not] at h
        obtain ⟨⟨hpn, h0⟩, h1⟩ := h
        simp [DisplayNode.NodeForPane, hpn, ih0.2 h0, ih1.2 h1]

/-- A sample pane. -/
def paneA : Pane := ⟨0, PaneKind.RadarScope, "A", true⟩

/-- A pane structurally identical to `paneA` except for its allocation
identity (`pid`). -/
def paneB : Pane := ⟨1, PaneKind.RadarScope, "A", true⟩

/-- A single-leaf tree holding `paneA`. -/
def singleLeafTree : DisplayNode := .leafN (some paneA) SplitLine.zero

/-- Witness for C5 at a concrete input: `paneA` is found by identity and
`paneB` — structurally identical to `paneA` apart from its allocation —
is not found. -/
theorem nodeForPane_correct_witness :
    (∃ n, singleLeafTree.NodeForPane paneA = some n ∧ n.pane = some paneA) ∧
    singleLeafTree.NodeForPane paneB = none :=
  ⟨(nodeForPane_correct singleLeafTree paneA).1 (by decide),
   (nodeForPane_correct singleLeafTree paneB).2 (by decide)⟩

/-- Show predicate of the Copy edit-mode button (src/wm.go line 365):
`positionConfig.DisplayRoot.Children[0] != nil`. -/
def showCopy (root : DisplayNode) : Bool := root.hasChildren

/-- Show predicate of the Exchange edit-mode button (src/wm.go line 389). -/
def showExchange (root : DisplayNode) : Bool := root.hasChildren

/-- Show predicate of the Split Horizontally button (src/wm.go line 409):
the source passes `func() bool { return true }`. -/
def showSplitHorizontally (_root : DisplayNode) : Bool := true

/-- Show predicate of the Split Vertically button (src/wm.go line 411):
the source passes `func() bool { return true }`. -/
def showSplitVertically (_root : DisplayNode) : Bool := true

/-- Show predicate of the Delete edit-mode button (src/wm.go line 423). -/
def showDelete (root : DisplayNode) : Bool := root.hasChildren

/-- C2 counterexample: on a single-pane tree (root has no children) the
Split Horizontally and Split Vertically controls are nevertheless shown,
so not every edit-mode control's show predicate requires more than one
node. -/
theorem editButtons_single_pane_counterexample :
    singleLeafTree.hasChildren = false ∧
    showSplitHorizontally singleLeafTree = true ∧
    showSplitVertically singleLeafTree = true := by
  exact ⟨rfl, rfl, rfl⟩

/-- C2 amended: Copy, Exchange and Delete are shown exactly when the root
is an internal node (`Children[0] != nil`), while Split Horizontally and
Split Vertically are always shown, including on a single-pane tree. -/
theorem editButtons_show_predicates (root : DisplayNode) :
    showCopy root = root.hasChildren ∧
    showExchange root = root.hasChildren ∧
    showDelete root = root.hasChildren ∧
    showSplitHorizontally root = true ∧
    showSplitVertically root = true :=
  ⟨rfl, rfl, rfl, rfl, rfl⟩

/-- The edit-mode split handler `handleSplitPick` (src/wm.go lines
391-407), functionally: at the node `NodeForPane` finds for `p` (same
search order: the node itself, then child 0's subtree, then child 1's),
every field is overwritten — the children become a fresh leaf holding the
fresh empty pane `newP` (`&DisplayNode{Pane: &EmptyPane{}}`) and a fresh
leaf holding `p` (`&DisplayNode{Pane: pane}`), the pane slot becomes nil,
and the split line becomes `{Pos: 0.5, Axis: ax}`.  `none` models the
nil-dereference the source performs when `p` is not in the tree. -/
def splitAtPane (ax : SplitType) (newP p : Pane) : DisplayNode → Option DisplayNode
  | .leafN pn _ =>
      if pn = some p then
        some (.intN none ⟨1/2, ax⟩ (.leafN (some newP) SplitLine.zero)
          (.leafN (some p) SplitLine.zero))
      else none
  | .intN pn sl c0 c1 =>
      if pn = some p then
        some (.intN none ⟨1/2, ax⟩ (.leafN (some newP) SplitLine.zero)
          (.leafN (some p) SplitLine.zero))
      else
        match splitAtPane ax newP p c0 with
        | some c0' => some (.intN pn sl c0' c1)
        | none => (splitAtPane ax newP p c1).map (fun c1' => .intN pn sl c0 c1')

/-- The tree after the edit-mode split of the leaf holding `p` (the tree
is unchanged when `p` is absent, where the source would crash). -/
def wmSplit (ax : SplitType) (newP p : Pane) (root : DisplayNode) : DisplayNode :=
  (splitAtPane ax newP p root).getD root

/-- The edit-mode Delete handler (src/wm.go lines 412-423), functionally:
`ParentNodeForPane` (lines 131-146) finds the parent one of whose
children's pane slot is `p` — checking the node's own children first,
then recursing into child 0's subtree, then child 1's — and the handler
overwrites that parent in place with the full contents of the other child
(`*node = *node.Children[other]`).  `none` models the nil-dereference the
source performs when no parent is found. -/
def deleteAtPane (p : Pane) : DisplayNode → Option DisplayNode
  | .leafN _ _ => none
  | .intN pn sl c0 c1 =>
      if c0.pane = some p then some c1
      else if c1.pane = some p then some c0
      else
        match deleteAtPane p c0 with
        | some c0' => some (.intN pn sl c0' c1)
        | none => (deleteAtPane p c1).map (fun c1' => .intN pn sl c0 c1')

/-- The tree after the edit-mode delete of the leaf holding `p` (the tree
is unchanged when no parent is found, where the source would crash). -/
def wmDelete (p : Pane) (root : DisplayNode) : DisplayNode :=
  (deleteAtPane p root).getD root

/-- A path from the root: `false` descends into child 0, `true` into
child 1. -/
abbrev Path := List Bool

/-- The pane slot of every leaf, tagged with its path from the root.
Internal nodes' pane slots (nil on every well-formed tree) are not
listed. -/
def DisplayNode.panePaths : DisplayNode → List (Path × Option Pane)
  | .leafN pn _ => [([], pn)]
  | .intN _ _ c0 c1 =>
      (c0.panePaths).map (fun q => (false :: q.1, q.2)) ++
      (c1.panePaths).map (fun q => (true :: q.1, q.2))

lemma occursSlotB_of_pane {d : DisplayNode} {p : Pane} (h : d.pane = some p) :
    d.occursSlotB p = true := by
  cases d <;> simp_all [DisplayNode.pane, DisplayNode.occursSlotB]

lemma splitAtPane_isSome (ax : SplitType) (newP p : Pane) (d : DisplayNode) :
    (splitAtPane ax newP p d).isSome = d.occursSlotB p := by
  induction d with
  | leafN pn sl =>
      by_cases h : pn = some p <;> simp [splitAtPane, DisplayNode.occursSlotB, h]
  | intN pn sl c0 c1 ih0 ih1 =>
      by_cases h : pn = some p
      · simp [splitAtPane, DisplayNode.occursSlotB, h]
      · cases h0 : splitAtPane ax newP p c0 with
        | some c0' =>
            have : c0.occursSlotB p = true := by rw [← ih0, h0]; rfl
            simp [splitAtPane, DisplayNode.occursSlotB, h, h0, this]
        | none =>
            have : c0.occursSlotB p = false := by rw [← ih0, h0]; rfl
            simp [splitAtPane, DisplayNode.occursSlotB, h, h0, this, ← ih1]

lemma splitAtPane_pane {ax : SplitType} {newP p : Pane} :
    ∀ {d d' : DisplayNode}, splitAtPane ax newP p d = some d' →
      d'.pane = none ∨ d'.pane = d.pane := by
  intro d
  induction d with
  | leafN pn sl =>
      intro d' h
      by_cases hp : pn = some p
      · simp only [splitAtPane, if_pos hp, Option.some.injEq] at h
        subst h; exact Or.inl rfl
      · simp [splitAtPane, hp] at h
  | intN pn sl c0 c1 ih0 ih1 =>
      intro d' h
      by_cases hp : pn = some p
      · simp only [splitAtPane, if_pos hp, Option.some.injEq] at h
        subst h; exact Or.inl rfl
      · simp only [splitAtPane, if_neg hp] at h
        cases h0 : splitAtPane ax newP p c0 with
        | some c0' =>
            rw [h0] at h
            simp only [Option.some.injEq] at h
            subst h; exact Or.inr rfl
        | none =>
            rw [h0] at h
            cases h1 : splitAtPane ax newP p c1 with
            | some c1' =>
                rw [h1] at h
                simp only [Option.map_some', Option.some.injEq] at h
                subst h; exact Or.inr rfl
            | none => rw [h1] at h; simp at h

lemma deleteAtPane_not_occurs {p : Pane} {d : DisplayNode}
    (h : d.occursSlotB p = false) : deleteAtPane p d = none := by
  induction d with
  | leafN pn sl => rfl
  | intN pn sl c0 c1 ih0 ih1 =>
      simp only [DisplayNode.occursSlotB, Bool.or_eq_false_iff,
        decide_eq_false_iff_not] at h
      obtain ⟨⟨hpn, h0⟩, h1⟩ := h
      have hc0 : ¬ c0.pane = some p := fun hc => by
        rw [occursSlotB_of_pane hc] at h0; exact Bool.noConfusion h0
      have hc1 : ¬ c1.pane = some p := fun hc => by
        rw [occursSlotB_of_pane hc] at h1; exact Bool.noConfusion h1
      simp [deleteAtPane, hc0, hc1, ih0 h0, ih1 h1]

/-- Split-then-delete, strengthened: on a well-formed tree containing `P`
but not `N`, the split handler finds a node, the delete handler finds the
parent of the fresh `N` leaf, and the resulting tree's leaf panes sit at
exactly the original paths. -/
lemma splitThenDelete_aux (ax : SplitType) {P N : Pane} :
    ∀ d : DisplayNode, d.wfB = true → d.occursSlotB P = true →
      d.occursSlotB N = false →
      ∃ d1 d2, splitAtPane ax N P d = some d1 ∧ deleteAtPane N d1 = some d2 ∧
        d2.panePaths = d.panePaths := by
  intro d
  induction d with
  | leafN pn sl =>
      intro _ hP _
      simp only [DisplayNode.occursSlotB, decide_eq_true_eq] at hP
      refine ⟨DisplayNode.intN none ⟨1/2, ax⟩ (.leafN (some N) SplitLine.zero)
          (.leafN (some P) SplitLine.zero),
        DisplayNode.leafN (some P) SplitLine.zero, ?_, ?_, ?_⟩
      · simp [splitAtPane, hP]
      · simp [deleteAtPane, DisplayNode.pane]
      · simp [DisplayNode.panePaths, hP]
  | intN pn sl c0 c1 ih0 ih1 =>
      intro hwf hP hN
      simp only [DisplayNode.wfB, Bool.and_eq_true, decide_eq_true_eq,
        Option.isNone_iff_eq_none] at hwf
      obtain ⟨⟨⟨hpn, _⟩, hwf0⟩, hwf1⟩ := hwf
      simp only [DisplayNode.occursSlotB, Bool.or_eq_false_iff,
        decide_eq_false_iff_not] at hN
      obtain ⟨⟨hpnN, hN0⟩, hN1⟩ := hN
      simp only [DisplayNode.occursSlotB, Bool.or_eq_true, decide_eq_true_eq] at hP
      have hpnP : ¬ pn = some P := by rw [hpn]; exact fun h => Option.noConfusion h
      have hc0N : ¬ c0.pane = some N := fun hc => by
        rw [occursSlotB_of_pane hc] at hN0; exact Bool.noConfusion hN0
      have hc1N : ¬ c1.pane = some N := fun hc => by
        rw [occursSlotB_of_pane hc] at hN1; exact Bool.noConfusion hN1
      by_cases h0 : c0.occursSlotB P = true
      · obtain ⟨d1, d2, hs, hd, hpp⟩ := ih0 hwf0 h0 hN0
        have hd1N : ¬ d1.pane = some N := by
          rcases splitAtPane_pane hs with h | h
          · rw [h]; exact fun h => Option.noConfusion h
          · rw [h]; exact hc0N
        refine ⟨.intN pn sl d1 c1, .intN pn sl d2 c1, ?_, ?_, ?_⟩
        · simp [splitAtPane, hpnP, hs]
        · simp [deleteAtPane, hd1N, hc1N, hd]
        · simp [DisplayNode.panePaths, hpp]
      · have h1 : c1.occursSlotB P = true := by
          rcases hP with (h | h) | h
          · exact absurd h hpnP
          · exact absurd h (by simpa using h0)
          · exact h
        obtain ⟨d1, d2, hs, hd, hpp⟩ := ih1 hwf1 h1 hN1
        have hs0 : splitAtPane ax N P c0 = none :=
          Option.not_isSome_iff_eq_none.mp (fun hcon => h0 (by
            rw [← splitAtPane_isSome ax N P c0]
            exact hcon))
        have hd1N : ¬ d1.pane = some N := by
          rcases splitAtPane_pane hs with h | h
          · rw [h]; exact fun h => Option.noConfusion h
          · rw [h]; exact hc1N
        refine ⟨.intN pn sl c0 d1, .intN pn sl c0 d2, ?_, ?_, ?_⟩
        · simp [splitAtPane, hpnP, hs0, hs]
        · simp [deleteAtPane, hc0N, hd1N, deleteAtPane_not_occurs hN0, hd]
        · simp [DisplayNode.panePaths, hpp]

/-- C4: on a well-formed tree containing pane `P` but not the fresh empty
pane `N`, the edit-mode split of `P`'s leaf (children become the fresh
`N` leaf and the leaf holding `P`) followed by the edit-mode delete of
`N` yields a tree whose leaf panes occupy exactly the same positions as
before the split. -/
theorem splitThenDelete_id (ax : SplitType) (root : DisplayNode) (P N : Pane)
    (hwf : root.wfB = true) (hP : root.occursSlotB P = true)
    (hN : root.occursSlotB N = false) :
    (wmDelete N (wmSplit ax N P root)).panePaths = root.panePaths := by
  obtain ⟨d1, d2, hs, hd, hpp⟩ := splitThenDelete_aux ax root hwf hP hN
  rw [wmSplit, hs, Option.getD_some, wmDelete, hd, Option.getD_some, hpp]

/-- Witness for C4 at a concrete input: splitting the single leaf holding
`paneA` with the fresh empty pane `paneB` and then deleting `paneB`
restores the leaf panes to their original positions. -/
theorem splitThenDelete_id_witness :
    (wmDelete paneB (wmSplit SplitType.SplitAxisX paneB paneA singleLeafTree)).panePaths =
      singleLeafTree.panePaths :=
  splitThenDelete_id SplitType.SplitAxisX singleLeafTree paneA paneB
    (by decide) (by decide) (by decide)

/-- The path of the node `NodeForPane` (src/wm.go lines 117-129) returns:
the same search order — the node itself, then child 0's subtree, then
child 1's — recorded as a path instead of a pointer, to model in-place
mutation through the returned pointer. -/
def DisplayNode.nodeForPanePath : DisplayNode → Pane → Option Path
  | .leafN pn _, p => if pn = some p then some [] else none
  | .intN pn _ c0 c1, p =>
      if pn = some p then some []
      else
        match c0.nodeForPanePath p with
        | some q => some (false :: q)
        | none => (c1.nodeForPanePath p).map (fun q => true :: q)

/-- The pane slot of the node at a path (`none` when the path leaves the
tree). -/
def DisplayNode.paneAtPath : DisplayNode → Path → Option (Option Pane)
  | d, [] => some d.pane
  | .leafN _ _, _ :: _ => none
  | .intN _ _ c0 c1, b :: q => if b then c1.paneAtPath q else c0.paneAtPath q

/-- Overwrite the pane slot of the node at a path, leaving every other
field of every node unchanged (identity when the path leaves the tree). -/
def DisplayNode.setPaneAt : DisplayNode → Path → Option Pane → DisplayNode
  | .leafN _ sl, [], v => .leafN v sl
  | .intN _ sl c0 c1, [], v => .intN v sl c0 c1
  | .leafN pn sl, _ :: _, _ => .leafN pn sl
  | .intN pn sl c0 c1, b :: q, v =>
      if b then .intN pn sl c0 (c1.setPaneAt q v)
      else .intN pn sl (c0.setPaneAt q v) c1

lemma nodeForPanePath_pane : ∀ (d : DisplayNode) (p : Pane) (q : Path),
    d.nodeForPanePath p = some q → d.paneAtPath q = some (some p) := by
  intro d
  induction d with
  | leafN pn sl =>
      intro p q h
      by_cases hp : pn = some p
      · simp only [DisplayNode.nodeForPanePath, if_pos hp, Option.some.injEq] at h
        subst h; simp [DisplayNode.paneAtPath, DisplayNode.pane, hp]
      · simp [DisplayNode.nodeForPanePath, hp] at h
  | intN pn sl c0 c1 ih0 ih1 =>
      intro p q h
      by_cases hp : pn = some p
      · simp only [DisplayNode.nodeForPanePath, if_pos hp, Option.some.injEq] at h
        subst h; simp [DisplayNode.paneAtPath, DisplayNode.pane, hp]
      · simp only [DisplayNode.nodeForPanePath, if_neg hp] at h
        cases h0 : c0.nodeForPanePath p with
        | some q0 =>
            rw [h0] at h
            simp only [Option.some.injEq] at h
            subst h
            simp [DisplayNode.paneAtPath, ih0 p q0 h0]
        | none =>
            rw [h0] at h
            cases h1 : c1.nodeForPanePath p with
            | some q1 =>
                rw [h1] at h
                simp only [Option.map_some', Option.some.injEq] at h
                subst h
                simp [DisplayNode.paneAtPath, ih1 p q1 h1]
            | none => rw [h1] at h; simp at h

lemma paneAtPath_setPaneAt_same : ∀ (d : DisplayNode) (q : Path) (v : Option Pane),
    (d.setPaneAt q v).paneAtPath q = (d.paneAtPath q).map (fun _ => v) := by
  intro d
  induction d with
  | leafN pn sl =>
      intro q v
      cases q with
      | nil => rfl
      | cons b q => rfl
  | intN pn sl c0 c1 ih0 ih1 =>
      intro q v
      cases q with
      | nil => rfl
      | cons b q =>
          cases b with
          | false => simpa [DisplayNode.setPaneAt, DisplayNode.paneAtPath] using ih0 q v
          | true => simpa [DisplayNode.setPaneAt, DisplayNode.paneAtPath] using ih1 q v

lemma paneAtPath_setPaneAt_other : ∀ (d : DisplayNode) (q r : Path) (v : Option Pane),
    q ≠ r → (d.setPaneAt q v).paneAtPath r = d.paneAtPath r := by
  intro d
  induction d with
  | leafN pn sl =>
      intro q r v hne
      cases q with
      | nil =>
          cases r with
          | nil => exact absurd rfl hne
          | cons b r => rfl
      | cons b q => rfl
  | intN pn sl c0 c1 ih0 ih1 =>
      intro q r v hne
      cases q with
      | nil =>
          cases r with
          | nil => exact absurd rfl hne
          | cons b r => cases b <;> rfl
      | cons b q =>
          cases r with
          | nil => cases b <;> rfl
          | cons b' r =>
              cases b <;> cases b' <;>
                simp_all [DisplayNode.setPaneAt, DisplayNode.paneAtPath]

/-- The window-manager edit-mode state the Exchange handler touches
(src/wm.go lines 20, 23): the first-picked pane and the help text. -/
structure WMEditState where
  paneFirstPick : Option Pane
  paneConfigHelpText : String
deriving DecidableEq, Repr

/-- The swap performed on the second Exchange click (src/wm.go lines
377-382): `NodeForPane` locates the nodes of the first pick and of the
clicked pane, and their pane slots are exchanged simultaneously
(`n0.Pane, n1.Pane = n1.Pane, n0.Pane`).  When either search fails the
source dereferences nil; the tree is returned unchanged there. -/
def exchangePanes (fp pane : Pane) (root : DisplayNode) : DisplayNode :=
  match root.nodeForPanePath fp, root.nodeForPanePath pane with
  | some q0, some q1 =>
      match root.paneAtPath q0, root.paneAtPath q1 with
      | some v0, some v1 => (root.setPaneAt q0 v1).setPaneAt q1 v0
      | _, _ => root
  | _, _ => root

/-- The Exchange pick handler (src/wm.go lines 367-389).  The first click
records the pick and prompts for the second window, reporting
incompletion; the second click swaps the two nodes' pane slots unless
the same pane was picked twice, clears the first pick and the help text,
and reports completion (so the caller disarms the handler). -/
def exchangeHandler (st : WMEditState) (root : DisplayNode) (pane : Pane) :
    Bool × WMEditState × DisplayNode :=
  match st.paneFirstPick with
  | none => (false, ⟨some pane, "Select second window for exchange"⟩, root)
  | some fp =>
      (true, ⟨none, ""⟩, if pane = fp then root else exchangePanes fp pane root)

/-- C9: on the second Exchange click, picking the same pane twice leaves
the tree completely unchanged while the armed state is cleared and the
handler reports completion; picking two different panes (both present)
swaps exactly the two located nodes' pane slots, leaving every other
pane slot untouched. -/
theorem exchange_second_click (st : WMEditState) (root : DisplayNode)
    (fp pane : Pane) (hst : st.paneFirstPick = some fp) :
    (pane = fp → exchangeHandler st root pane = (true, ⟨none, ""⟩, root)) ∧
    (pane ≠ fp → ∀ q0 q1, root.nodeForPanePath fp = some q0 →
      root.nodeForPanePath pane = some q1 →
      (exchangeHandler st root pane).1 = true ∧
      (exchangeHandler st root pane).2.1 = ⟨none, ""⟩ ∧
      (exchangeHandler st root pane).2.2.paneAtPath q0 = some (some pane) ∧
      (exchangeHandler st root pane).2.2.paneAtPath q1 = some (some fp) ∧
      ∀ r, r ≠ q0 → r ≠ q1 →
        (exchangeHandler st root pane).2.2.paneAtPath r = root.paneAtPath r) := by
  constructor
  · intro hpf
    simp [exchangeHandler, hst, hpf]
  · intro hpf q0 q1 h0 h1
    have hv0 := nodeForPanePath_pane root fp q0 h0
    have hv1 := nodeForPanePath_pane root pane q1 h1
    have hq : q0 ≠ q1 := by
      intro hq
      rw [hq, hv1] at hv0
      simp only [Option.some.injEq] at hv0
      exact hpf hv0
    have hroot : (exchangeHandler st root pane).2.2 =
        (root.setPaneAt q0 (some pane)).setPaneAt q1 (some fp) := by
      simp [exchangeHandler, hst, hpf, exchangePanes, h0, h1, hv0, hv1]
    refine ⟨by simp [exchangeHandler, hst], by simp [exchangeHandler, hst, hpf], ?_, ?_, ?_⟩
    · rw [hroot, paneAtPath_setPaneAt_other _ q1 q0 _ (Ne.symm hq),
        paneAtPath_setPaneAt_same, hv0]
      rfl
    · rw [hroot, paneAtPath_setPaneAt_same,
        paneAtPath_setPaneAt_other _ q0 q1 _ hq, hv1]
      rfl
    · intro r hr0 hr1
      rw [hroot, paneAtPath_setPaneAt_other _ q1 r _ (Ne.symm hr1),
        paneAtPath_setPaneAt_other _ q0 r _ (Ne.symm hr0)]

/-- A two-leaf tree holding `paneA` and `paneB`. -/
def twoLeafTree : DisplayNode :=
  .intN none ⟨1/2, SplitType.SplitAxisX⟩
    (.leafN (some paneA) SplitLine.zero) (.leafN (some paneB) SplitLine.zero)

/-- Witness for C9 at a concrete input: exchanging `paneA` (first pick)
with `paneB` on the two-leaf tree swaps exactly the two pane slots, and
picking `paneA` twice leaves the tree unchanged. -/
theorem exchange_second_click_witness :
    (exchangeHandler ⟨some paneA, "Select second window for exchange"⟩ twoLeafTree paneA =
      (true, ⟨none, ""⟩, twoLeafTree)) ∧
    (exchangeHandler ⟨some paneA, "Select second window for exchange"⟩ twoLeafTree paneB).2.2.paneAtPath
      [false] = some (some paneB) ∧
    (exchangeHandler ⟨some paneA, "Select second window for exchange"⟩ twoLeafTree paneB).2.2.paneAtPath
      [true] = some (some paneA) := by
  refine ⟨(exchange_second_click ⟨some paneA, "Select second window for exchange"⟩
      twoLeafTree paneA paneA rfl).1 rfl, ?_, ?_⟩
  · exact ((exchange_second_click ⟨some paneA, "Select second window for exchange"⟩
      twoLeafTree paneA paneB rfl).2 (by decide) [false] [true] (by decide) (by decide)).2.2.1
  · exact ((exchange_second_click ⟨some paneA, "Select second window for exchange"⟩
      twoLeafTree paneA paneB rfl).2 (by decide) [false] [true] (by decide) (by decide)).2.2.2.1

/-- wmPaneIsPresent (src/wm.go lines 596-604): whether some visited item
of the tree equals the (possibly nil) keyboard-focus pane.  A node's
split line is a distinct allocation from every pane and from nil, so a
`.split` item never equals the focus value. -/
def wmPaneIsPresentB (root : DisplayNode) (pane : Option Pane) : Bool :=
  root.visitPanes.any (fun it =>
    match it with
    | .pane p => p = pane
    | .split _ => false)

/-- The CLI-preferring pass of wmDrawPanes (src/wm.go lines 614-618): the
visit callback overwrites the candidate with every `*CLIPane` it sees, so
the last CLI pane in traversal order wins. -/
def pickCLIPane (root : DisplayNode) : Option Pane :=
  root.visitPanes.foldl (fun acc it =>
    match it with
    | .pane (some p) => if p.kind = PaneKind.CLI then some p else acc
    | _ => acc) none

/-- The fallback pass of wmDrawPanes (src/wm.go lines 621-627): the visit
callback overwrites the candidate with every visited item whose
`CanTakeKeyboardFocus()` returns true.  `SplitLine.CanTakeKeyboardFocus()`
returns false (src/wm.go line 67), so split items never win; a nil leaf
pane would crash the source there. -/
def pickFocusablePane (root : DisplayNode) : Option Pane :=
  root.visitPanes.foldl (fun acc it =>
    match it with
    | .pane (some p) => if p.canTakeKeyboardFocus then some p else acc
    | _ => acc) none

/-- The keyboard-focus resolution at the top of wmDrawPanes (src/wm.go
lines 606-628): clear the focus if it is no longer present; when no focus
is set, run the CLI-preferring pass, and if it finds nothing, the
focus-eligibility pass. -/
def wmResolveFocus (root : DisplayNode) (kf : Option Pane) : Option Pane :=
  match if wmPaneIsPresentB root kf then kf else none with
  | some p => some p
  | none =>
      match pickCLIPane root with
      | some p => some p
      | none => pickFocusablePane root

/-- Follows the claim's words (C1), not the source: the FIRST pane in
`VisitPanes` traversal order whose `CanTakeKeyboardFocus()` returns
true. -/
def firstFocusEligiblePaneSpec (root : DisplayNode) : Option Pane :=
  (root.visitPanes.filterMap (fun it =>
    match it with
    | .pane (some p) => if p.canTakeKeyboardFocus then some p else none
    | _ => none)).head?

/-- C1 counterexample: on a two-pane tree with no CLI pane and both panes
keyboard-focus eligible, the controller resolves the focus to the SECOND
(last) pane in traversal order, not to the first focus-eligible pane the
claim names. -/
theorem focus_fallback_counterexample :
    pickCLIPane twoLeafTree = none ∧
    wmResolveFocus twoLeafTree none = some paneB ∧
    firstFocusEligiblePaneSpec twoLeafTree = some paneA ∧
    some paneB ≠ some paneA := by decide

lemma getLast?_cons_or {β : Type} (b : β) (l : List β) :
    (b :: l).getLast? = l.getLast?.or (some b) := by
  cases h : l.getLast? <;> simp [List.getLast?_cons, h]

lemma foldl_pick_last {α β : Type} (g : α → Option β) :
    ∀ (l : List α) (init : Option β),
      l.foldl (fun acc x => (g x).or acc) init = ((l.filterMap g).getLast?).or init := by
  intro l
  induction l with
  | nil => intro init; rfl
  | cons x xs ih =>
      intro init
      rw [List.foldl_cons, List.filterMap_cons]
      cases hx : g x with
      | none => exact ih init
      | some b =>
          show List.foldl (fun acc x => (g x).or acc) (some b) xs =
            ((b :: List.filterMap g xs).getLast?).or init
          rw [getLast?_cons_or b (xs.filterMap g)]
          have h2 : ∀ (y i : Option β), (y.or (some b)).or i = y.or (some b) := by
            intro y i; cases y <;> rfl
          rw [h2]
          exact ih (some b)

/-- The CLI panes of the tree, in traversal order. -/
def cliPanesSeq (root : DisplayNode) : List Pane :=
  root.visitPanes.filterMap (fun it =>
    match it with
    | VItem.pane (some p) => if p.kind = PaneKind.CLI then some p else none
    | _ => none)

/-- The keyboard-focus-eligible panes of the tree, in traversal order. -/
def focusablePanesSeq (root : DisplayNode) : List Pane :=
  root.visitPanes.filterMap (fun it =>
    match it with
    | VItem.pane (some p) => if p.canTakeKeyboardFocus then some p else none
    | _ => none)

lemma pickCLIPane_eq (root : DisplayNode) :
    pickCLIPane root = (cliPanesSeq root).getLast? := by
  have hstep : (fun (acc : Option Pane) (it : VItem) =>
      match it with
      | VItem.pane (some p) => if p.kind = PaneKind.CLI then some p else acc
      | _ => acc) = (fun (acc : Option Pane) (it : VItem) =>
      (match it with
        | VItem.pane (some p) => if p.kind = PaneKind.CLI then some p else none
        | _ => none).or acc) := by
    funext acc it
    rcases it with p | sl
    · rcases p with _ | p
      · rfl
      · by_cases h : p.kind = PaneKind.CLI <;> simp [h, Option.or]
    · rfl
  have hfold := foldl_pick_last (fun (it : VItem) =>
      match it with
      | VItem.pane (some p) => if p.kind = PaneKind.CLI then some p else none
      | _ => none) root.visitPanes none
  rw [pickCLIPane, hstep]
  refine hfold.trans ?_
  rw [cliPanesSeq]
  cases (root.visitPanes.filterMap (fun (it : VItem) =>
      match it with
      | VItem.pane (some p) => if p.kind = PaneKind.CLI then some p else none
      | _ => none)).getLast? <;> rfl

lemma pickFocusablePane_eq (root : DisplayNode) :
    pickFocusablePane root = (focusablePanesSeq root).getLast? := by
  have hstep : (fun (acc : Option Pane) (it : VItem) =>
      match it with
      | VItem.pane (some p) => if p.canTakeKeyboardFocus then some p else acc
      | _ => acc) = (fun (acc : Option Pane) (it : VItem) =>
      (match it with
        | VItem.pane (some p) => if p.canTakeKeyboardFocus then some p else none
        | _ => none).or acc) := by
    funext acc it
    rcases it with p | sl
    · rcases p with _ | p
      · rfl
      · by_cases h : p.canTakeKeyboardFocus <;> simp [h, Option.or]
    · rfl
  have hfold := foldl_pick_last (fun (it : VItem) =>
      match it with
      | VItem.pane (some p) => if p.canTakeKeyboardFocus then some p else none
      | _ => none) root.visitPanes none
  rw [pickFocusablePane, hstep]
  refine hfold.trans ?_
  rw [focusablePanesSeq]
  cases (root.visitPanes.filterMap (fun (it : VItem) =>
      match it with
      | VItem.pane (some p) => if p.canTakeKeyboardFocus then some p else none
      | _ => none)).getLast? <;> rfl

/-- C1 amended: a stale focus (not present in the tree) is cleared, i.e.
resolution proceeds as with no focus; a present focus is kept; and with
no focus set the controller selects the LAST CLI pane in traversal order
when one exists, and otherwise the LAST pane in traversal order whose
`CanTakeKeyboardFocus()` returns true. -/
theorem focus_resolution (root : DisplayNode) (kf : Option Pane) :
    (wmPaneIsPresentB root kf = false → wmResolveFocus root kf = wmResolveFocus root none) ∧
    (∀ p, kf = some p → wmPaneIsPresentB root kf = true → wmResolveFocus root kf = some p) ∧
    (wmResolveFocus root none =
      ((cliPanesSeq root).getLast?).or ((focusablePanesSeq root).getLast?)) := by
  have hnone : wmResolveFocus root none =
      ((cliPanesSeq root).getLast?).or ((focusablePanesSeq root).getLast?) := by
    rw [wmResolveFocus, ite_self, pickCLIPane_eq, pickFocusablePane_eq]
    cases (cliPanesSeq root).getLast? <;> rfl
  refine ⟨?_, ?_, hnone⟩
  · intro h
    rw [wmResolveFocus, h, wmResolveFocus, ite_self]
    rfl
  · intro p hp h
    rw [wmResolveFocus, h, hp]
    simp

/-- Witness for the amended C1 at concrete inputs: a focus pane that is
present is kept; a stale focus resolves exactly as an empty focus. -/
theorem focus_resolution_witness :
    wmResolveFocus twoLeafTree (some paneA) = some paneA ∧
    wmResolveFocus singleLeafTree (some paneB) = wmResolveFocus singleLeafTree none :=
  ⟨(focus_resolution twoLeafTree (some paneA)).2.1 paneA rfl (by decide),
   (focus_resolution singleLeafTree (some paneB)).1 (by decide)⟩

/-- Modelled from the spec (sections 3 and 4.1): the geometry module's
`Extent2D` — an axis-aligned rectangle given by two corner points — lives
outside src/wm.go, so it is modelled from the spec's words, with `ℚ`
coordinates for the source's `float32`. -/
structure Extent2D where
  p0 : ℚ × ℚ
  p1 : ℚ × ℚ
deriving DecidableEq, Repr

/-- Modelled from the spec (section 4.1): split-by-fraction-plus-gutter
along the x axis — the portion before the gutter (scaled by the
fraction), the gutter strip of width `g` centered at the fraction, and
the portion after. -/
def Extent2D.SplitX (e : Extent2D) (f : ℚ) (g : ℚ) :
    Extent2D × Extent2D × Extent2D :=
  let xs := e.p0.1 + f * (e.p1.1 - e.p0.1)
  (⟨e.p0, (xs - g / 2, e.p1.2)⟩,
   ⟨(xs - g / 2, e.p0.2), (xs + g / 2, e.p1.2)⟩,
   ⟨(xs + g / 2, e.p0.2), e.p1⟩)

/-- Modelled from the spec (section 4.1): split-by-fraction-plus-gutter
along the y axis. -/
def Extent2D.SplitY (e : Extent2D) (f : ℚ) (g : ℚ) :
    Extent2D × Extent2D × Extent2D :=
  let ys := e.p0.2 + f * (e.p1.2 - e.p0.2)
  (⟨e.p0, (e.p1.1, ys - g / 2)⟩,
   ⟨(e.p0.1, ys - g / 2), (e.p1.1, ys + g / 2)⟩,
   ⟨(e.p0.1, ys + g / 2), e.p1⟩)

/-- One invocation of the `VisitPanesWithBounds` visit callback: the four
geometric contexts and the visited item. -/
structure BoundsVisit where
  framebufferExtent : Extent2D
  displayExtent : Extent2D
  parentDisplayExtent : Extent2D
  fullDisplayExtent : Extent2D
  item : VItem
deriving DecidableEq, Repr

/-- DisplayNode.VisitPanesWithBounds (src/wm.go lines 264-286).  The node
filter is applied before the axis switch, and the recursion descends into
the children of the *filtered* node, so the source only terminates for
filters that do not keep growing the tree; the embedding makes this
explicit with a recursion budget `fuel`, sufficient whenever it is at
least the depth of the (filtered) tree.  `slw` is `splitLineWidth()`
(derived from the platform DPI scale outside src/wm.go, so passed as a
parameter).  A leaf visits its pane with the four extents; an internal
node splits the framebuffer and display extents independently at the
stored fraction, visits child 0, the node's own split line, then
child 1, passing its own display extent as the children's parent extent.
A non-None axis on a childless node crashes the source dereferencing nil
children; nothing is visited there. -/
def DisplayNode.VisitPanesWithBounds :
    Nat → (DisplayNode → DisplayNode) → DisplayNode → ℚ →
      Extent2D → Extent2D → Extent2D → Extent2D → List BoundsVisit
  | 0, _, _, _, _, _, _, _ => []
  | Nat.succ fuel, nodeFilter, d0, slw, fbExtent, dispExtent, parentDisp, fullDisp =>
      match nodeFilter d0 with
      | .leafN pn sl =>
          match sl.Axis with
          | .SplitAxisNone => [⟨fbExtent, dispExtent, parentDisp, fullDisp, .pane pn⟩]
          | _ => []
      | .intN pn sl c0 c1 =>
          match sl.Axis with
          | .SplitAxisNone => [⟨fbExtent, dispExtent, parentDisp, fullDisp, .pane pn⟩]
          | .SplitAxisX =>
              let f3 := fbExtent.SplitX sl.Pos slw
              let d3 := dispExtent.SplitX sl.Pos slw
              VisitPanesWithBounds fuel nodeFilter c0 slw f3.1 d3.1 dispExtent fullDisp ++
                [⟨f3.2.1, d3.2.1, dispExtent, fullDisp, .split sl⟩] ++
                VisitPanesWithBounds fuel nodeFilter c1 slw f3.2.2 d3.2.2 dispExtent fullDisp
          | .SplitAxisY =>
              let f3 := fbExtent.SplitY sl.Pos slw
              let d3 := dispExtent.SplitY sl.Pos slw
              VisitPanesWithBounds fuel nodeFilter c0 slw f3.1 d3.1 dispExtent fullDisp ++
                [⟨f3.2.1, d3.2.1, dispExtent, fullDisp, .split sl⟩] ++
                VisitPanesWithBounds fuel nodeFilter c1 slw f3.2.2 d3.2.2 dispExtent fullDisp

/-- Depth of the tree; `VisitPanesWithBounds` with the identity filter
recurses no deeper than this. -/
def DisplayNode.depth : DisplayNode → Nat
  | .leafN _ _ => 1
  | .intN _ _ c0 c1 => 1 + max c0.depth c1.depth

/-- C6: with the identity node filter (and a recursion budget of at
least the tree's depth), `VisitPanesWithBounds` invokes its callback on
exactly the panes and split lines `VisitPanes` visits, in the same
order: left subtree, the node's own split line, right subtree for
internal nodes, the pane itself for leaves. -/
theorem visitPanesWithBounds_same_items (d : DisplayNode) :
    ∀ (fuel : Nat), d.depth ≤ fuel → ∀ (slw : ℚ) (fb disp pd fd : Extent2D),
      (DisplayNode.VisitPanesWithBounds fuel (fun n => n) d slw fb disp pd fd).map
        (fun v => v.item) = d.visitPanes := by
  induction d with
  | leafN pn sl =>
      intro fuel hf slw fb disp pd fd
      cases fuel with
      | zero => simp [DisplayNode.depth] at hf
      | succ fuel =>
          obtain ⟨pos, ax⟩ := sl
          cases ax <;>
            simp [DisplayNode.VisitPanesWithBounds, DisplayNode.visitPanes]
  | intN pn sl c0 c1 ih0 ih1 =>
      intro fuel hf slw fb disp pd fd
      cases fuel with
      | zero => simp [DisplayNode.depth] at hf
      | succ fuel =>
          have hd0 : c0.depth ≤ fuel := by
            have h1 := le_max_left c0.depth c1.depth
            simp only [DisplayNode.depth] at hf
            omega
          have hd1 : c1.depth ≤ fuel := by
            have h1 := le_max_right c0.depth c1.depth
            simp only [DisplayNode.depth] at hf
            omega
          obtain ⟨pos, ax⟩ := sl
          cases ax with
          | SplitAxisNone =>
              simp [DisplayNode.VisitPanesWithBounds, DisplayNode.visitPanes]
          | SplitAxisX =>
              simp [DisplayNode.VisitPanesWithBounds, DisplayNode.visitPanes,
                ih0 fuel hd0, ih1 fuel hd1]
          | SplitAxisY =>
              simp [DisplayNode.VisitPanesWithBounds, DisplayNode.visitPanes,
                ih0 fuel hd0, ih1 fuel hd1]

/-- Witness for C6 at a concrete input: on the two-leaf tree with budget
2 and concrete extents, the bounds visitor's item sequence equals the
`VisitPanes` sequence. -/
theorem visitPanesWithBounds_same_items_witness :
    (DisplayNode.VisitPanesWithBounds 2 (fun n => n) twoLeafTree 3
      ⟨(0, 0), (200, 100)⟩ ⟨(0, 0), (100, 50)⟩ ⟨(0, 0), (100, 50)⟩
      ⟨(0, 0), (100, 60)⟩).map (fun v => v.item) = twoLeafTree.visitPanes :=
  visitPanesWithBounds_same_items twoLeafTree 2 (by decide) 3
    ⟨(0, 0), (200, 100)⟩ ⟨(0, 0), (100, 50)⟩ ⟨(0, 0), (100, 50)⟩ ⟨(0, 0), (100, 60)⟩

/-- Modelled from the spec (section 6 and the C7 assumption): a pane's
`Duplicate` operation returns a fresh pane — a new allocation, modelled
by consuming the next free pid — with the same name (the `nameAsCopy`
flag affects naming only; the concrete pane implementations live outside
src/wm.go).  Returns the duplicate and the next free pid. -/
def PaneDuplicate (p : Pane) (nameAsCopy : Bool) (fresh : Nat) : Pane × Nat :=
  (⟨fresh, p.kind, if nameAsCopy then p.name ++ " (Copy)" else p.name,
    p.canTakeKeyboardFocus⟩, fresh + 1)

/-- DisplayNode.Duplicate (src/wm.go lines 102-115): builds a fresh node;
the pane slot is duplicated via the pane's `Duplicate(false)` when
non-nil, the split line struct is copied, and the children are duplicated
exactly when the axis is not `SplitAxisNone` — so an internal node with a
None axis drops its children in the copy, and a childless node with a
split axis would crash the source (excluded by `wfB`).  The fresh-pid
supply is threaded left to right to model allocation order. -/
def DisplayNode.Duplicate : DisplayNode → Nat → DisplayNode × Nat
  | .leafN pn sl, fresh =>
      match pn with
      | some p =>
          let q := PaneDuplicate p false fresh
          (.leafN (some q.1) sl, q.2)
      | none => (.leafN none sl, fresh)
  | .intN pn sl c0 c1, fresh =>
      let r : Option Pane × Nat :=
        match pn with
        | some p =>
            let q := PaneDuplicate p false fresh
            (some q.1, q.2)
        | none => (none, fresh)
      match sl.Axis with
      | .SplitAxisNone => (.leafN r.1 sl, r.2)
      | _ =>
          let d0 := Duplicate c0 r.2
          let d1 := Duplicate c1 d0.2
          (.intN r.1 sl d0.1 d1.1, d1.2)

/-- The pids of every pane slot of the tree. -/
def DisplayNode.slotPids : DisplayNode → List Nat
  | .leafN pn _ => match pn with | some p => [p.pid] | none => []
  | .intN pn _ c0 c1 =>
      (match pn with | some p => [p.pid] | none => []) ++ c0.slotPids ++ c1.slotPids

/-- The `Name()` of a visited item: the pane's name, or `"Split Line"`
for a split line (src/wm.go lines 69-71).  A nil leaf pane would crash
the source's `Name()` call; it is mapped to the empty string. -/
def VItem.itemName : VItem → String
  | .pane (some p) => p.name
  | .pane none => ""
  | .split _ => "Split Line"

/-- The names of the visited items, in traversal order. -/
def DisplayNode.visitNames (d : DisplayNode) : List String :=
  d.visitPanes.map VItem.itemName

lemma visitNames_intN_axis (pn : Option Pane) (pos : ℚ) (ax : SplitType)
    (hax : ax ≠ SplitType.SplitAxisNone) (c0 c1 : DisplayNode) :
    (DisplayNode.intN pn ⟨pos, ax⟩ c0 c1).visitNames =
      c0.visitNames ++ ["Split Line"] ++ c1.visitNames := by
  cases ax with
  | SplitAxisNone => exact absurd rfl hax
  | SplitAxisX =>
      simp [DisplayNode.visitNames, DisplayNode.visitPanes, VItem.itemName]
  | SplitAxisY =>
      simp [DisplayNode.visitNames, DisplayNode.visitPanes, VItem.itemName]

lemma duplicate_aux : ∀ (d : DisplayNode) (fresh : Nat),
    fresh ≤ (d.Duplicate fresh).2 ∧
    (∀ i ∈ (d.Duplicate fresh).1.slotPids, fresh ≤ i ∧ i < (d.Duplicate fresh).2) ∧
    (d.Duplicate fresh).1.visitNames = d.visitNames := by
  intro d
  induction d with
  | leafN pn sl =>
      intro fresh
      cases pn with
      | none =>
          refine ⟨le_refl _, ?_, rfl⟩
          intro i hi
          simp [DisplayNode.Duplicate, DisplayNode.slotPids] at hi
      | some p =>
          refine ⟨Nat.le_succ _, ?_, ?_⟩
          · intro i hi
            simp only [DisplayNode.Duplicate, DisplayNode.slotPids,
              PaneDuplicate, List.mem_singleton] at hi
            subst hi
            exact ⟨le_refl _, Nat.lt_succ_self _⟩
          · obtain ⟨pos, ax⟩ := sl
            cases ax <;>
              simp [DisplayNode.Duplicate, DisplayNode.visitNames,
                DisplayNode.visitPanes, VItem.itemName, PaneDuplicate]
  | intN pn sl c0 c1 ih0 ih1 =>
      intro fresh
      obtain ⟨pos, ax⟩ := sl
      cases ax with
      | SplitAxisNone =>
          cases pn with
          | none =>
              refine ⟨le_refl _, ?_, ?_⟩
              · intro i hi
                simp [DisplayNode.Duplicate, DisplayNode.slotPids] at hi
              · simp [DisplayNode.Duplicate, DisplayNode.visitNames,
                  DisplayNode.visitPanes]
          | some p =>
              refine ⟨Nat.le_succ _, ?_, ?_⟩
              · intro i hi
                simp only [DisplayNode.Duplicate, DisplayNode.slotPids,
                  PaneDuplicate, List.mem_singleton] at hi
                subst hi
                exact ⟨le_refl _, Nat.lt_succ_self _⟩
              · simp [DisplayNode.Duplicate, DisplayNode.visitNames,
                  DisplayNode.visitPanes, VItem.itemName, PaneDuplicate]
      | SplitAxisX =>
          cases pn with
          | none =>
              obtain ⟨h0le, h0mem, h0names⟩ := ih0 fresh
              obtain ⟨h1le, h1mem, h1names⟩ := ih1 (c0.Duplicate fresh).2
              refine ⟨le_trans h0le h1le, ?_, ?_⟩
              · intro i hi
                simp only [DisplayNode.Duplicate, DisplayNode.slotPids,
                  List.mem_append] at hi
                rcases hi with (hi | hi) | hi
                · simp at hi
                · obtain ⟨hl, hr⟩ := h0mem i hi
                  exact ⟨hl, lt_of_lt_of_le hr h1le⟩
                · obtain ⟨hl, hr⟩ := h1mem i hi
                  exact ⟨le_trans h0le hl, hr⟩
              · show (DisplayNode.intN none ⟨pos, SplitType.SplitAxisX⟩
                    (c0.Duplicate fresh).1 ((c1.Duplicate (c0.Duplicate fresh).2).1)).visitNames =
                  (DisplayNode.intN none ⟨pos, SplitType.SplitAxisX⟩ c0 c1).visitNames
                rw [visitNames_intN_axis _ _ _ (fun h => SplitType.noConfusion h),
                  visitNames_intN_axis _ _ _ (fun h => SplitType.noConfusion h),
                  h0names, h1names]
          | some p =>
              obtain ⟨h0le, h0mem, h0names⟩ := ih0 (fresh + 1)
              obtain ⟨h1le, h1mem, h1names⟩ := ih1 (c0.Duplicate (fresh + 1)).2
              refine ⟨le_trans (Nat.le_succ _) (le_trans h0le h1le), ?_, ?_⟩
              · intro i hi
                simp only [DisplayNode.Duplicate, DisplayNode.slotPids,
                  PaneDuplicate, List.mem_append, List.mem_singleton] at hi
                rcases hi with (hi | hi) | hi
                · subst hi
                  exact ⟨le_refl _, lt_of_lt_of_le (Nat.lt_succ_self _)
                    (le_trans h0le h1le)⟩
                · obtain ⟨hl, hr⟩ := h0mem i hi
                  exact ⟨le_trans (Nat.le_succ _) hl, lt_of_lt_of_le hr h1le⟩
                · obtain ⟨hl, hr⟩ := h1mem i hi
                  exact ⟨le_trans (Nat.le_succ _) (le_trans h0le hl), hr⟩
              · show (DisplayNode.intN (some (PaneDuplicate p false fresh).1)
                    ⟨pos, SplitType.SplitAxisX⟩ (c0.Duplicate (fresh + 1)).1
                    ((c1.Duplicate (c0.Duplicate (fresh + 1)).2).1)).visitNames =
                  (DisplayNode.intN (some p) ⟨pos, SplitType.SplitAxisX⟩ c0 c1).visitNames
                rw [visitNames_intN_axis _ _ _ (fun h => SplitType.noConfusion h),
                  visitNames_intN_axis _ _ _ (fun h => SplitType.noConfusion h),
                  h0names, h1names]
      | SplitAxisY =>
          cases pn with
          | none =>
              obtain ⟨h0le, h0mem, h0names⟩ := ih0 fresh
              obtain ⟨h1le, h1mem, h1names⟩ := ih1 (c0.Duplicate fresh).2
              refine ⟨le_trans h0le h1le, ?_, ?_⟩
              · intro i hi
                simp only [DisplayNode.Duplicate, DisplayNode.slotPids,
                  List.mem_append] at hi
                rcases hi with (hi | hi) | hi
                · simp at hi
                · obtain ⟨hl, hr⟩ := h0mem i hi
                  exact ⟨hl, lt_of_lt_of_le hr h1le⟩
                · obtain ⟨hl, hr⟩ := h1mem i hi
                  exact ⟨le_trans h0le hl, hr⟩
              · show (DisplayNode.intN none ⟨pos, SplitType.SplitAxisY⟩
                    (c0.Duplicate fresh).1 ((c1.Duplicate (c0.Duplicate fresh).2).1)).visitNames =
                  (DisplayNode.intN none ⟨pos, SplitType.SplitAxisY⟩ c0 c1).visitNames
                rw [visitNames_intN_axis _ _ _ (fun h => SplitType.noConfusion h),
                  visitNames_intN_axis _ _ _ (fun h => SplitType.noConfusion h),
                  h0names, h1names]
          | some p =>
              obtain ⟨h0le, h0mem, h0names⟩ := ih0 (fresh + 1)
              obtain ⟨h1le, h1mem, h1names⟩ := ih1 (c0.Duplicate (fresh + 1)).2
              refine ⟨le_trans (Nat.le_succ _) (le_trans h0le h1le), ?_, ?_⟩
              · intro i hi
                simp only [DisplayNode.Duplicate, DisplayNode.slotPids,
                  PaneDuplicate, List.mem_append, List.mem_singleton] at hi
                rcases hi with (hi | hi) | hi
                · subst hi
                  exact ⟨le_refl _, lt_of_lt_of_le (Nat.lt_succ_self _)
                    (le_trans h0le h1le)⟩
                · obtain ⟨hl, hr⟩ := h0mem i hi
                  exact ⟨le_trans (Nat.le_succ _) hl, lt_of_lt_of_le hr h1le⟩
                · obtain ⟨hl, hr⟩ := h1mem i hi
                  exact ⟨le_trans (Nat.le_succ _) (le_trans h0le hl), hr⟩
              · show (DisplayNode.intN (some (PaneDuplicate p false fresh).1)
                    ⟨pos, SplitType.SplitAxisY⟩ (c0.Duplicate (fresh + 1)).1
                    ((c1.Duplicate (c0.Duplicate (fresh + 1)).2).1)).visitNames =
                  (DisplayNode.intN (some p) ⟨pos, SplitType.SplitAxisY⟩ c0 c1).visitNames
                rw [visitNames_intN_axis _ _ _ (fun h => SplitType.noConfusion h),
                  visitNames_intN_axis _ _ _ (fun h => SplitType.noConfusion h),
                  h0names, h1names]

/-- C7: when every pane pid of `T` is below the fresh-pid supply (i.e.
the duplicates really are fresh allocations), `T.Duplicate` yields a tree
sharing no pane identity (pid) with `T` whose traversal yields the same
sequence of names.  (Node identities are trivially disjoint in the
source: every node of the copy is built by a fresh `&DisplayNode{}`
literal.) -/
theorem duplicate_fresh_panes_same_names (T : DisplayNode) (fresh : Nat)
    (hb : ∀ i ∈ T.slotPids, i < fresh) :
    (∀ q ∈ (T.Duplicate fresh).1.slotPids, ∀ p ∈ T.slotPids, q ≠ p) ∧
    (T.Duplicate fresh).1.visitNames = T.visitNames := by
  obtain ⟨_, hmem, hnames⟩ := duplicate_aux T fresh
  refine ⟨?_, hnames⟩
  intro q hq p hp
  obtain ⟨hl, _⟩ := hmem q hq
  have := hb p hp
  omega

/-- Witness for C7 at a concrete input: duplicating the two-leaf tree
with fresh pids starting at 100 shares no pane pid with the source and
preserves the name sequence. -/
theorem duplicate_fresh_panes_same_names_witness :
    (∀ q ∈ (twoLeafTree.Duplicate 100).1.slotPids, ∀ p ∈ twoLeafTree.slotPids, q ≠ p) ∧
    (twoLeafTree.Duplicate 100).1.visitNames = twoLeafTree.visitNames :=
  duplicate_fresh_panes_same_names twoLeafTree 100 (by decide)

/-- The pane-type discriminator strings of the `UnmarshalJSON` type
switch (src/wm.go lines 182-244); the empty string (a nil pane) is
handled separately, and any other string falls to the default branch. -/
def knownPaneTypeStrings : List String :=
  ["*main.AirportInfoPane", "*main.CLIPane", "*main.EmptyPane",
   "*main.FlightPlanPane", "*main.FlightStripPane", "*main.NotesViewPane",
   "*main.PerformancePane", "*main.RadarScopePane", "*main.ReminderPane"]

/-- Modelled from the spec (sections 3 and 7): `NewEmptyPane()` — a
constructor outside src/wm.go — builds a fresh inert empty-pane
placeholder. -/
def NewEmptyPane (fresh : Nat) : Pane :=
  ⟨fresh, PaneKind.Empty, "Empty", false⟩

/-- DisplayNode.UnmarshalJSON (src/wm.go lines 161-251), shallowly.  The
raw JSON decodes (the surrounding map, the Type string, the SplitLine
and Children fields, and each concrete pane variant's payload) are
performed by the external json package and the pane implementations, so
each arrives as an already-computed `Except` result; the function
mirrors the source's sequencing — every failing field decode aborts with
that error — and its type switch: an empty discriminator leaves the pane
slot nil, a known discriminator stores that variant's decoded pane
(aborting on its decode error), and any other discriminator logs
(`logged = true` in the result) and substitutes `NewEmptyPane()`,
returning without error.  The nine known cases share one shape (decode
the Pane field as that variant), collapsed here into the membership
test. -/
def unmarshalDisplayNode (typeRes : Except String String)
    (splitLineRes : Except String SplitLine)
    (childrenRes : Except String (Option (DisplayNode × DisplayNode)))
    (paneRes : String → Except String Pane) (freshPid : Nat) :
    Except String (Option Pane × SplitLine × Option (DisplayNode × DisplayNode) × Bool) :=
  match typeRes with
  | .error e => .error e
  | .ok paneType =>
      match splitLineRes with
      | .error e => .error e
      | .ok sl =>
          match childrenRes with
          | .error e => .error e
          | .ok ch =>
              if paneType = "" then .ok (none, sl, ch, false)
              else if knownPaneTypeStrings.contains paneType then
                match paneRes paneType with
                | .error e => .error e
                | .ok p => .ok (some p, sl, ch, false)
              else .ok (some (NewEmptyPane freshPid), sl, ch, true)

/-- C8: a node record whose pane-type discriminator is non-empty and not
one of the known pane types is logged, its pane slot is substituted with
a fresh inert EmptyPane placeholder, and the unmarshal returns without
error — regardless of how the variant pane decoders would behave. -/
theorem unmarshal_unknown_discriminator (ty : String) (sl : SplitLine)
    (ch : Option (DisplayNode × DisplayNode))
    (paneRes : String → Except String Pane) (freshPid : Nat)
    (hne : ty ≠ "") (hunk : knownPaneTypeStrings.contains ty = false) :
    unmarshalDisplayNode (.ok ty) (.ok sl) (.ok ch) paneRes freshPid =
      .ok (some (NewEmptyPane freshPid), sl, ch, true) := by
  have hunk' : ty ∉ knownPaneTypeStrings := by simpa using hunk
  simp [unmarshalDisplayNode, hne, hunk']

/-- Witness for C8 at a concrete input: the unknown discriminator
`"*main.BogusPane"` decodes without error into an EmptyPane placeholder
with the logged flag set, even though every variant decoder fails. -/
theorem unmarshal_unknown_discriminator_witness :
    unmarshalDisplayNode (.ok "*main.BogusPane") (.ok SplitLine.zero) (.ok none)
      (fun _ => .error "decode failure") 7 =
      .ok (some (NewEmptyPane 7), SplitLine.zero, none, true) :=
  unmarshal_unknown_discriminator "*main.BogusPane" SplitLine.zero none
    (fun _ => .error "decode failure") 7 (by decide) (by decide)

/-- The per-frame mouse state SplitLine.Draw consults (src/wm.go lines
74-75): whether a secondary-button drag is in progress, and the drag
delta.  The mouse state type lives outside src/wm.go. -/
structure MouseState where
  draggingSecondary : Bool
  dragDelta : ℚ × ℚ
deriving DecidableEq, Repr

/-- Modelled from the spec (section 3's split-fraction invariant): the
`clamp` helper called by SplitLine.Draw lives outside src/wm.go; it
restricts a value to `[lo, hi]`. -/
def clamp (x lo hi : ℚ) : ℚ := if x < lo then lo else if x > hi then hi else x

/-- SplitLine.Draw's drag handling (src/wm.go lines 73-87): when the
mouse is present and a secondary-button drag is in progress, the split
position moves by the drag delta normalized by the parent pane extent's
width (X axis) or height (any other axis), then is clamped to
[0.01, 0.99]; otherwise the split-line state is unchanged.  The buffer
clear at the end of Draw does not touch the split-line state. -/
def SplitLine.Draw (s : SplitLine) (mouse : Option MouseState)
    (parentWidth parentHeight : ℚ) : SplitLine :=
  match mouse with
  | some m =>
      if m.draggingSecondary then
        let pos := if s.Axis = SplitType.SplitAxisX then
            s.Pos + m.dragDelta.1 / parentWidth
          else
            s.Pos + m.dragDelta.2 / parentHeight
        { s with Pos := clamp pos (1/100) (99/100) }
      else s
  | none => s

lemma clamp_mem (x lo hi : ℚ) (h : lo ≤ hi) :
    lo ≤ clamp x lo hi ∧ clamp x lo hi ≤ hi := by
  unfold clamp
  split_ifs with h1 h2
  · exact ⟨le_refl _, h⟩
  · exact ⟨h, le_refl _⟩
  · exact ⟨not_lt.mp h1, not_lt.mp h2⟩

/-- C10: after SplitLine.Draw processes a secondary-button drag, the
split position lies in [0.01, 0.99] — hence strictly inside (0, 1) —
for every starting split line, parent extent, and drag delta. -/
theorem splitLine_drag_pos_clamped (s : SplitLine) (m : MouseState)
    (pw ph : ℚ) (hdrag : m.draggingSecondary = true) :
    (1/100 : ℚ) ≤ (s.Draw (some m) pw ph).Pos ∧
    (s.Draw (some m) pw ph).Pos ≤ 99/100 ∧
    0 < (s.Draw (some m) pw ph).Pos ∧ (s.Draw (some m) pw ph).Pos < 1 := by
  have hmem := clamp_mem (if s.Axis = SplitType.SplitAxisX then
      s.Pos + m.dragDelta.1 / pw else s.Pos + m.dragDelta.2 / ph)
    (1/100) (99/100) (by norm_num)
  have hdraw : (s.Draw (some m) pw ph).Pos =
      clamp (if s.Axis = SplitType.SplitAxisX then
        s.Pos + m.dragDelta.1 / pw else s.Pos + m.dragDelta.2 / ph) (1/100) (99/100) := by
    simp [SplitLine.Draw, hdrag]
  rw [hdraw]
  refine ⟨hmem.1, hmem.2, by linarith [hmem.1], by linarith [hmem.2]⟩

/-- Witness for C10 at a concrete input: an enormous drag delta on a
small parent extent still leaves the position inside [0.01, 0.99]. -/
theorem splitLine_drag_pos_clamped_witness :
    (1/100 : ℚ) ≤ ((SplitLine.mk (1/2) SplitType.SplitAxisX).Draw
      (some ⟨true, (1000000, 0)⟩) 100 50).Pos ∧
    ((SplitLine.mk (1/2) SplitType.SplitAxisX).Draw
      (some ⟨true, (1000000, 0)⟩) 100 50).Pos ≤ 99/100 ∧
    0 < ((SplitLine.mk (1/2) SplitType.SplitAxisX).Draw
      (some ⟨true, (1000000, 0)⟩) 100 50).Pos ∧
    ((SplitLine.mk (1/2) SplitType.SplitAxisX).Draw
      (some ⟨true, (1000000, 0)⟩) 100 50).Pos < 1 :=
  splitLine_drag_pos_clamped (SplitLine.mk (1/2) SplitType.SplitAxisX)
    ⟨true, (1000000, 0)⟩ 100 50 rfl

end Vice
